import Mathlib

/-!
Verification of ollama-auth, an authenticating reverse proxy (main.go).

A shallow embedding of the Go program into Lean.

Modelling conventions.

* A Go string holding text (header values, the configuration file, URLs) is a
  Lean string; the functions of package strings that the program calls are
  defined on its list of characters.  The separators the program splits on
  (space, colon, line feed) are ASCII, so splitting the characters and
  splitting the UTF-8 bytes agree.
* Body payloads are byte lists.
* A run-time panic (index out of range) is the error case of Except.
* log.Fatal is the error case of Except in readConfig.
* The packages net/http, os and io are the environment: the response writer
  follows the documented contract of http.ResponseWriter; the upstream client,
  http.NewRequest, the file system and the body reader are parameters.
* For the statements about the outbound URL the parameter http.NewRequest is
  instantiated by goNewRequest, a byte-level model of url.Parse, URL.String and
  http.NewRequest as of Go 1.22.
-/

namespace OllamaAuth

/-! ## Package strings -/

/-- Go strings.Split(s, sep) for a one-character separator, on the character list:
the pieces between all occurrences of the separator; never the empty list. -/
def splitChars (sep : Char) : List Char → List (List Char)
  | [] => [[]]
  | c :: cs =>
    if c = sep then [] :: splitChars sep cs
    else
      match splitChars sep cs with
      | [] => [[c]]
      | p :: ps => (c :: p) :: ps

/-- Go strings.Split(s, sep) for a one-character separator. -/
def Split (s : String) (sep : Char) : List String :=
  (splitChars sep s.data).map String.mk

/-- A run-time panic of the Go program. -/
inductive Panic where
  | indexOutOfRange (index len : Nat)
  deriving DecidableEq, Repr

instance instDecidableEqExcept {ε α : Type} [DecidableEq ε] [DecidableEq α] :
    DecidableEq (Except ε α)
  | .ok a, .ok b => if h : a = b then isTrue (by rw [h]) else isFalse (by intro c; cases c; exact h rfl)
  | .error a, .error b =>
    if h : a = b then isTrue (by rw [h]) else isFalse (by intro c; cases c; exact h rfl)
  | .ok _, .error _ => isFalse (by intro c; cases c)
  | .error _, .ok _ => isFalse (by intro c; cases c)

/-- Go slice indexing xs[i]: panics when i is not below the length. -/
def index {α : Type} (xs : List α) (i : Nat) : Except Panic α :=
  match xs.get? i with
  | some x => .ok x
  | none => .error (.indexOutOfRange i xs.length)

/-! ## The handle -/

/-- A request handed to the upstream client: the bytes of its method and of the text
of its URL as http.NewRequest built them, the header set and the body. -/
structure OutReq where
  method : List UInt8
  url : List UInt8
  header : List (String × List String)
  body : List UInt8
  deriving DecidableEq, Repr

/-- Error value of a body read: io.EOF or any other error. -/
inductive ReadErr where
  | EOF
  | other
  deriving DecidableEq, Repr

/-- One call of Body.Read(buff): the bytes buff[:n] and the error returned. -/
structure ReadResult where
  data : List UInt8
  err : Option ReadErr
  deriving DecidableEq, Repr

/-- The upstream response: the status code and the results of the successive body
reads.  A read past the end of the script returns zero bytes and io.EOF. -/
structure Response where
  statusCode : Nat
  body : List ReadResult
  deriving DecidableEq, Repr

/-- The type of httpClient.Do: none is a dispatch error. -/
abbrev Client := OutReq → Option Response

/-- The struct Handle of main.go. -/
structure Handle where
  validToken : String
  ollamaServer : String
  listenerAddr : String
  keyFile : String
  certFile : String
  httpClient : Client

/-- Handle.authorized of main.go: split the header at every space, accept when
part 0 is the word Bearer and part 1 is the valid token.  The conjunction
evaluates parts[1] only when parts[0] matched. -/
def Handle.authorized (h : Handle) (authHeader : String) : Except Panic Bool := do
  let parts := Split authHeader ' '
  let p0 ← index parts 0
  if p0 = "Bearer" then
    let p1 ← index parts 1
    if p1 = h.validToken then
      return true
  return false

/-! ## The response writer (contract of http.ResponseWriter) -/

/-- A header map: canonical key to its values. -/
abbrev Header := List (String × List String)

/-- Go Header.Get(key): the first value stored for the key, or the empty string. -/
def Header.Get (h : Header) (key : String) : String :=
  match h.lookup key with
  | some (v :: _) => v
  | _ => ""

/-- Go Header.Del(key): drop the entry of the key. -/
def Header.Del (h : Header) (key : String) : Header :=
  h.filter (fun e => e.1 ≠ key)

/-- Go Header.Set(key, value): the key now holds exactly the one value. -/
def Header.Set (h : Header) (key value : String) : Header :=
  Header.Del h key ++ [(key, [value])]

/-- The UTF-8 bytes of a text. -/
def bytes (s : String) : List UInt8 :=
  s.data.flatMap String.utf8EncodeChar

/-- What the client has been sent so far.  The field status is none until the
response header is written; sentHeader is the header map as it was at that
moment. -/
structure ResponseWriter where
  header : Header
  status : Option Nat
  sentHeader : Header
  body : List UInt8
  deriving DecidableEq, Repr

/-- The writer the server hands to a handler: nothing set, nothing sent. -/
def ResponseWriter.fresh : ResponseWriter :=
  { header := [], status := none, sentHeader := [], body := [] }

/-- Go w.WriteHeader(code): sends the header with the status code; a call after the
header has been sent is superfluous and changes nothing. -/
def ResponseWriter.WriteHeader (w : ResponseWriter) (code : Nat) : ResponseWriter :=
  match w.status with
  | some _ => w
  | none => { w with status := some code, sentHeader := w.header }

/-- Go w.Write(data): if WriteHeader has not yet been called, Write calls
WriteHeader(200) before writing the data. -/
def ResponseWriter.Write (w : ResponseWriter) (data : List UInt8) : ResponseWriter :=
  let w1 := w.WriteHeader 200
  { w1 with body := w1.body ++ data }

/-- Go w.Flush(): sends buffered data; sends the header with status 200 first when
it is still unwritten. -/
def ResponseWriter.Flush (w : ResponseWriter) : ResponseWriter :=
  w.WriteHeader 200

/-- Go w.Header().Set(key, value). -/
def ResponseWriter.SetHeader (w : ResponseWriter) (key value : String) : ResponseWriter :=
  { w with header := Header.Set w.header key value }

/-! ## Handling a request -/

/-- The inbound request: url is the text r.URL.String() returns. -/
structure Request where
  method : String
  url : String
  header : Header
  body : List UInt8
  remoteAddr : String
  deriving DecidableEq, Repr

/-- Observable input and output on the two connections, in the order it happens. -/
inductive Event where
  | read (r : ReadResult)
  | write (data : List UInt8)
  | flush
  deriving DecidableEq, Repr

/-- The state of one execution of handleRequest: the response writer, the
requests handed to httpClient.Do so far, and the event trace. -/
structure Run where
  w : ResponseWriter
  upstream : List OutReq
  trace : List Event
  deriving DecidableEq, Repr

/-- Go http.Error(w, msg, code): sets the plain-text content type, writes the
header with the code and prints the message followed by a line feed to w. -/
def Run.Error (run : Run) (msg : String) (code : Nat) : Run :=
  let w1 := (run.w.SetHeader "Content-Type" "text/plain; charset=utf-8").SetHeader
    "X-Content-Type-Options" "nosniff"
  let w2 := (w1.WriteHeader code).Write (bytes (msg ++ "\n"))
  { run with w := w2, trace := run.trace ++ [Event.write (bytes (msg ++ "\n"))] }

/-- The statements w.Write(buff[:n]); w.(http.Flusher).Flush() of the relay loop. -/
def Run.WriteFlush (run : Run) (data : List UInt8) : Run :=
  { run with w := (run.w.Write data).Flush, trace := run.trace ++ [Event.write data, Event.flush] }

/-- The result of Body.Read when the script of reads is used up. -/
def ReadResult.eof : ReadResult := { data := [], err := some .EOF }

/-- One iteration of the relay loop of handleRequest (lines 74 to 89) on the read
result r; the Boolean says whether the loop goes on. -/
def relayStep (run : Run) (r : ReadResult) : Run × Bool :=
  let run1 := { run with trace := run.trace ++ [Event.read r] }
  if r.err ≠ none ∧ r.err ≠ some .EOF then
    (run1.Error "Request failed" 502, false)
  else
    let run2 := run1.WriteFlush r.data
    if r.data.length = 0 ∨ r.err = some .EOF then (run2, false) else (run2, true)

/-- The relay loop of handleRequest over the script of body reads. -/
def relay (run : Run) : List ReadResult → Run
  | [] => (relayStep run ReadResult.eof).1
  | r :: rest =>
    match relayStep run r with
    | (run1, true) => relay run1 rest
    | (run1, false) => run1

/-- Handle.handleRequest of main.go.  The parameter newRequest is http.NewRequest
applied to a method and a URL text with a nil body: none when it returns an error,
else the method and the URL text of the request it built, which need not be the
texts handed in.  Console output is not part of the model. -/
def Handle.handleRequest (h : Handle)
    (newRequest : String → String → Option (List UInt8 × List UInt8))
    (w : ResponseWriter) (r : Request) : Except Panic Run := do
  let run : Run := { w := w, upstream := [], trace := [] }
  let ok ← h.authorized (Header.Get r.header "Authorization")
  if ok = false then
    return run.Error "Unauthorized" 401
  let header := Header.Del r.header "Authorization"
  let ollamaUrl := h.ollamaServer ++ r.url
  match newRequest r.method ollamaUrl with
  | none => return run.Error "Bad request" 400
  | some built =>
    let ollamaReq : OutReq :=
      { method := built.1, url := built.2, header := header, body := r.body }
    let run := { run with upstream := run.upstream ++ [ollamaReq] }
    match h.httpClient ollamaReq with
    | none => return run.Error "Request failed" 502
    | some ollamaResp =>
      let run := { run with w := run.w.SetHeader "Content-Type" "application/json" }
      return relay run ollamaResp.body

/-! ## Reading the configuration -/

/-- Go unicode.IsSpace. -/
def isSpace (c : Char) : Bool :=
  let n := c.toNat
  (9 ≤ n && n ≤ 13) || n = 0x20 || n = 0x85 || n = 0xA0 || n = 0x1680 ||
    (0x2000 ≤ n && n ≤ 0x200A) || n = 0x2028 || n = 0x2029 || n = 0x202F ||
    n = 0x205F || n = 0x3000

/-- Go strings.TrimSpace: drop the white space at both ends. -/
def TrimSpace (s : String) : String :=
  String.mk ((s.data.dropWhile isSpace).reverse.dropWhile isSpace).reverse

/-- Go strings.Contains(s, sep) for a one-character sep. -/
def Contains (s : String) (sep : Char) : Bool :=
  s.data.contains sep

/-- Go strings.SplitN(s, sep, 2) on the character list: cut at the first separator. -/
def splitFirst (sep : Char) : List Char → List (List Char)
  | [] => [[]]
  | c :: cs =>
    if c = sep then [[], cs]
    else
      match splitFirst sep cs with
      | [] => [[c]]
      | p :: ps => (c :: p) :: ps

/-- Go strings.SplitN(s, sep, 2) for a one-character separator. -/
def SplitN2 (s : String) (sep : Char) : List String :=
  (splitFirst sep s.data).map String.mk

/-- Go strings.ToLower: the letters A to Z map to a to z, a rune outside ASCII
goes through unicode.ToLower, here the parameter lowerRune. -/
def ToLower (lowerRune : Char → Char) (s : String) : String :=
  String.mk (s.data.map fun c =>
    if c.toNat < 128 then (if 'A' ≤ c ∧ c ≤ 'Z' then Char.ofNat (c.toNat + 32) else c)
    else lowerRune c)

/-- How the process ends abnormally: a panic, or log.Fatal with a message. -/
inductive Exit where
  | panic (p : Panic)
  | fatal (msg : String)
  deriving DecidableEq, Repr

/-- The body of the loop over the lines in readConfig. -/
def configLine (lowerRune : Char → Char) (handle : Handle) (l : String) :
    Except Panic Handle := do
  if Contains l ':' = false then
    return handle
  let line := SplitN2 (TrimSpace l) ':'
  let k ← index line 0
  let tVal ← index line 1
  let tType := ToLower lowerRune k
  if tType = "ollama_server" then
    return { handle with ollamaServer := ToLower lowerRune tVal }
  else if tType = "auth_token" then
    return { handle with validToken := tVal }
  else if tType = "listener_addr" then
    return { handle with listenerAddr := ToLower lowerRune tVal }
  else if tType = "key_file" then
    return { handle with keyFile := tVal }
  else if tType = "cert_file" then
    return { handle with certFile := tVal }
  else
    return handle

/-- The loop of readConfig over the lines of the file. -/
def configLines (lowerRune : Char → Char) (handle : Handle) :
    List String → Except Panic Handle
  | [] => .ok handle
  | l :: ls =>
    match configLine lowerRune handle l with
    | .ok handle1 => configLines lowerRune handle1 ls
    | .error p => .error p

/-- Function readConfig of main.go.  The argument configData is what os.ReadFile
returned, none for a read error; client is the value of the expression that
builds the default http.Client. -/
def readConfig (lowerRune : Char → Char) (client : Client) (configData : Option String) :
    Except Exit Handle :=
  match configData with
  | none => .error (.fatal "read error")
  | some data =>
    let handle : Handle :=
      { validToken := "", ollamaServer := "", listenerAddr := "", keyFile := "",
        certFile := "", httpClient := fun _ => none }
    match configLines lowerRune handle (Split data '\n') with
    | .error p => .error (.panic p)
    | .ok handle =>
      let handle := { handle with httpClient := client }
      if handle.listenerAddr = "" then .error (.fatal "Listener address not set in config")
      else if handle.ollamaServer = "" then .error (.fatal "Ollama server URL not set in config")
      else if handle.validToken = "" then .error (.fatal "Auth token not set in config")
      else .ok handle

/-! ## Startup -/

/-- Function fileExist of main.go; stat tells whether os.Stat succeeds on a path. -/
def fileExist (stat : String → Bool) (file : String) : Bool :=
  if stat file then true else false

/-- The listener main starts. -/
inductive Listener where
  | tls (addr certFile keyFile : String)
  | plain (addr : String)
  deriving DecidableEq, Repr

/-- What main did before it blocks in a listener or returns: the lines printed and
the listener started, if any. -/
structure Startup where
  stdout : List String
  listener : Option Listener
  deriving DecidableEq, Repr

/-- Function main of main.go up to the call that starts the listener.  In the last
branch err stays nil, so main prints the message and returns. -/
def main (lowerRune : Char → Char) (client : Client) (stat : String → Bool)
    (configData : Option String) : Except Exit Startup := do
  let h ← readConfig lowerRune client configData
  if fileExist stat h.keyFile && fileExist stat h.certFile then
    return { stdout := ["Starting HTTPS server..."],
             listener := some (.tls h.listenerAddr h.certFile h.keyFile) }
  else if h.certFile = "" ∧ h.keyFile = "" then
    return { stdout := ["Starting HTTP server..."], listener := some (.plain h.listenerAddr) }
  else
    return { stdout := ["Certificate or key file not found!"], listener := none }

/-! ## Packages net/url and net/http: what http.NewRequest builds -/

/-- The byte of an ASCII character. -/
def ascii (c : Char) : UInt8 := UInt8.ofNat c.toNat

def isLetter (c : UInt8) : Bool :=
  (ascii 'a' ≤ c && c ≤ ascii 'z') || (ascii 'A' ≤ c && c ≤ ascii 'Z')

def isDigit (c : UInt8) : Bool := ascii '0' ≤ c && c ≤ ascii '9'

/-- The escaping modes of package net/url. -/
inductive Encoding where
  | encodePath
  | encodePathSegment
  | encodeHost
  | encodeZone
  | encodeUserPassword
  | encodeQueryComponent
  | encodeFragment
  deriving DecidableEq, Repr

/-- Go url.shouldEscape. -/
def shouldEscape (c : UInt8) (mode : Encoding) : Bool :=
  if isLetter c || isDigit c then false
  else if (mode = .encodeHost || mode = .encodeZone) &&
      (bytes "!$&\x27()*+,;=:[]<>\x22").contains c then false
  else if (bytes "-_.~").contains c then false
  else if (bytes "$&+,/:;=?@").contains c then
    match mode with
    | .encodePath => c = ascii '?'
    | .encodePathSegment =>
      c = ascii '/' || c = ascii ';' || c = ascii ',' || c = ascii '?'
    | .encodeUserPassword =>
      c = ascii '@' || c = ascii '/' || c = ascii '?' || c = ascii ':'
    | .encodeQueryComponent => true
    | .encodeFragment => false
    | _ => true
  else if mode = .encodeFragment && (bytes "!()*").contains c then false
  else true

def ishex (c : UInt8) : Bool :=
  isDigit c || (ascii 'a' ≤ c && c ≤ ascii 'f') || (ascii 'A' ≤ c && c ≤ ascii 'F')

def unhex (c : UInt8) : UInt8 :=
  if isDigit c then c - ascii '0'
  else if ascii 'a' ≤ c && c ≤ ascii 'f' then c - ascii 'a' + 10
  else if ascii 'A' ≤ c && c ≤ ascii 'F' then c - ascii 'A' + 10
  else 0

/-- Go url.unescape: none is an escape or host error. -/
def unescape (mode : Encoding) : List UInt8 → Option (List UInt8)
  | [] => some []
  | c :: rest =>
    if c = ascii '%' then
      match rest with
      | a :: b :: rest2 =>
        if ishex a && ishex b then
          let v := unhex a * 16 + unhex b
          let is25 : Bool := a = ascii '2' && b = ascii '5'
          if mode = .encodeHost && unhex a < 8 && !is25 then none
          else if mode = .encodeZone && !is25 && v ≠ ascii ' ' && shouldEscape v .encodeHost then
            none
          else (unescape mode rest2).map (fun t => v :: t)
        else none
      | _ => none
    else if c = ascii '+' then
      (unescape mode rest).map
        (fun t => (if mode = .encodeQueryComponent then ascii ' ' else ascii '+') :: t)
    else if (mode = .encodeHost || mode = .encodeZone) && c < 0x80 &&
        shouldEscape c .encodeHost then none
    else (unescape mode rest).map (fun t => c :: t)

def upperhex (n : UInt8) : UInt8 :=
  if n < 10 then ascii '0' + n else ascii 'A' + (n - 10)

/-- Go url.escape. -/
def escape (s : List UInt8) (mode : Encoding) : List UInt8 :=
  s.flatMap fun c =>
    if c = ascii ' ' && mode = .encodeQueryComponent then [ascii '+']
    else if shouldEscape c mode then [ascii '%', upperhex (c / 16), upperhex (c % 16)]
    else [c]

/-- Go url.validEncoded. -/
def validEncoded (s : List UInt8) (mode : Encoding) : Bool :=
  s.all fun c =>
    if (bytes "!$&\x27()*+,;=:@").contains c then true
    else if c = ascii '[' || c = ascii ']' then true
    else if c = ascii '%' then true
    else !shouldEscape c mode

/-- Go url.validOptionalPort. -/
def validOptionalPort (port : List UInt8) : Bool :=
  match port with
  | [] => true
  | c :: digits => c = ascii ':' && digits.all isDigit

/-- Go url.validUserinfo. -/
def validUserinfo (s : List UInt8) : Bool :=
  s.all fun c => isLetter c || isDigit c || (bytes "-._:~!$&\x27()*+,;=%@").contains c

/-- Go strings.Index(s, sep) for a one-byte sep: minus one when absent. -/
def indexByte (sep : UInt8) : List UInt8 → Int
  | [] => -1
  | c :: rest =>
    if c = sep then 0
    else
      let i := indexByte sep rest
      if i < 0 then -1 else i + 1

/-- Go strings.LastIndex(s, sep) for a one-byte sep: minus one when absent. -/
def lastIndexByte (sep : UInt8) (s : List UInt8) : Int :=
  let i := indexByte sep s.reverse
  if i < 0 then -1 else (s.length : Int) - 1 - i

/-- Go strings.Index(s, sep): minus one when absent. -/
def indexSub (sep : List UInt8) : List UInt8 → Int
  | [] => if sep = [] then 0 else -1
  | c :: rest =>
    if (c :: rest).take sep.length = sep then 0
    else
      let i := indexSub sep rest
      if i < 0 then -1 else i + 1

/-- Go strings.Cut(s, sep) for a one-byte sep: the text before and after the first sep. -/
def cut (sep : UInt8) (s : List UInt8) : List UInt8 × List UInt8 :=
  let i := indexByte sep s
  if i < 0 then (s, []) else (s.take i.toNat, s.drop (i.toNat + 1))

/-- Go strings.HasPrefix. -/
def startsWith (s p : List UInt8) : Bool := s.take p.length = p

/-- Go strings.HasSuffix. -/
def endsWith (s p : List UInt8) : Bool := s.drop (s.length - p.length) = p

/-- Go strings.ToLower on ASCII text. -/
def lowerASCII (s : List UInt8) : List UInt8 :=
  s.map fun c => if ascii 'A' ≤ c && c ≤ ascii 'Z' then c + 32 else c

/-- Go url.Userinfo. -/
structure Userinfo where
  username : List UInt8
  password : List UInt8
  passwordSet : Bool
  deriving DecidableEq, Repr

/-- Go url.URL. -/
structure URL where
  Scheme : List UInt8 := []
  Opaque : List UInt8 := []
  User : Option Userinfo := none
  Host : List UInt8 := []
  Path : List UInt8 := []
  RawPath : List UInt8 := []
  OmitHost : Bool := false
  ForceQuery : Bool := false
  RawQuery : List UInt8 := []
  Fragment : List UInt8 := []
  RawFragment : List UInt8 := []
  deriving DecidableEq, Repr

/-- Go url.getScheme, the loop from position i on: pre is rawURL[:i]. -/
def getSchemeFrom (rawURL pre : List UInt8) : List UInt8 → Option (List UInt8 × List UInt8)
  | [] => some ([], rawURL)
  | c :: rest =>
    if isLetter c then getSchemeFrom rawURL (pre ++ [c]) rest
    else if isDigit c || c = ascii '+' || c = ascii '-' || c = ascii '.' then
      if pre = [] then some ([], rawURL) else getSchemeFrom rawURL (pre ++ [c]) rest
    else if c = ascii ':' then
      if pre = [] then none else some (pre, rest)
    else some ([], rawURL)

/-- Go url.getScheme: the scheme and the rest, none for a missing protocol scheme. -/
def getScheme (rawURL : List UInt8) : Option (List UInt8 × List UInt8) :=
  getSchemeFrom rawURL [] rawURL

/-- Go url.parseHost. -/
def parseHost (host : List UInt8) : Option (List UInt8) :=
  if startsWith host [ascii '['] then
    let i := lastIndexByte (ascii ']') host
    if i < 0 then none
    else
      let colonPort := host.drop (i.toNat + 1)
      if !validOptionalPort colonPort then none
      else
        let zone := indexSub (bytes "%25") (host.take i.toNat)
        if zone ≥ 0 then
          match unescape .encodeHost (host.take zone.toNat),
            unescape .encodeZone ((host.take i.toNat).drop zone.toNat),
            unescape .encodeHost (host.drop i.toNat) with
          | some host1, some host2, some host3 => some (host1 ++ host2 ++ host3)
          | _, _, _ => none
        else unescape .encodeHost host
  else
    let i := lastIndexByte (ascii ':') host
    if i ≠ -1 && !validOptionalPort (host.drop i.toNat) then none
    else unescape .encodeHost host

/-- Go url.parseAuthority. -/
def parseAuthority (authority : List UInt8) : Option (Option Userinfo × List UInt8) :=
  let i := lastIndexByte (ascii '@') authority
  match (if i < 0 then parseHost authority else parseHost (authority.drop (i.toNat + 1))) with
  | none => none
  | some host =>
    if i < 0 then some (none, host)
    else
      let userinfo := authority.take i.toNat
      if !validUserinfo userinfo then none
      else if !userinfo.contains (ascii ':') then
        match unescape .encodeUserPassword userinfo with
        | none => none
        | some u => some (some { username := u, password := [], passwordSet := false }, host)
      else
        let (username, password) := cut (ascii ':') userinfo
        match unescape .encodeUserPassword username, unescape .encodeUserPassword password with
        | some u, some p => some (some { username := u, password := p, passwordSet := true }, host)
        | _, _ => none

/-- Go URL.setPath. -/
def URL.setPath (u : URL) (p : List UInt8) : Option URL :=
  match unescape .encodePath p with
  | none => none
  | some path =>
    some { u with Path := path, RawPath := if p = escape path .encodePath then [] else p }

/-- Go URL.setFragment. -/
def URL.setFragment (u : URL) (f : List UInt8) : Option URL :=
  match unescape .encodeFragment f with
  | none => none
  | some frag =>
    some { u with Fragment := frag,
                  RawFragment := if f = escape frag .encodeFragment then [] else f }

/-- Go url.stringContainsCTLByte. -/
def stringContainsCTLByte (s : List UInt8) : Bool :=
  s.any fun b => b < ascii ' ' || b = 0x7f

/-- Go url.parse with viaRequest false. -/
def parse (rawURL : List UInt8) : Option URL :=
  if stringContainsCTLByte rawURL then none
  else if rawURL = bytes "*" then some { Path := bytes "*" }
  else
    match getScheme rawURL with
    | none => none
    | some (scheme, rest0) =>
      let url : URL := { Scheme := lowerASCII scheme }
      let (rest, url) :=
        if endsWith rest0 (bytes "?") && rest0.count (ascii '?') = 1 then
          (rest0.take (rest0.length - 1), { url with ForceQuery := true })
        else
          ((cut (ascii '?') rest0).1, { url with RawQuery := (cut (ascii '?') rest0).2 })
      if !startsWith rest (bytes "/") && url.Scheme ≠ [] then
        some { url with Opaque := rest }
      else if !startsWith rest (bytes "/") && (cut (ascii '/') rest).1.contains (ascii ':') then
        none
      else if (url.Scheme ≠ [] || !startsWith rest (bytes "///")) &&
          startsWith rest (bytes "//") then
        let authority0 := rest.drop 2
        let i := indexByte (ascii '/') authority0
        let authority := if i ≥ 0 then authority0.take i.toNat else authority0
        let rest1 := if i ≥ 0 then authority0.drop i.toNat else []
        match parseAuthority authority with
        | none => none
        | some (user, host) => URL.setPath { url with User := user, Host := host } rest1
      else if url.Scheme ≠ [] && startsWith rest (bytes "/") then
        URL.setPath { url with OmitHost := true } rest
      else URL.setPath url rest

/-- Go url.Parse. -/
def Parse (rawURL : List UInt8) : Option URL :=
  let (u, frag) := cut (ascii '#') rawURL
  match parse u with
  | none => none
  | some url => if frag = [] then some url else url.setFragment frag

/-- Go URL.EscapedPath. -/
def URL.EscapedPath (u : URL) : List UInt8 :=
  if u.RawPath ≠ [] && validEncoded u.RawPath .encodePath &&
      unescape .encodePath u.RawPath = some u.Path then u.RawPath
  else if u.Path = bytes "*" then bytes "*"
  else escape u.Path .encodePath

/-- Go URL.EscapedFragment. -/
def URL.EscapedFragment (u : URL) : List UInt8 :=
  if u.RawFragment ≠ [] && validEncoded u.RawFragment .encodeFragment &&
      unescape .encodeFragment u.RawFragment = some u.Fragment then u.RawFragment
  else escape u.Fragment .encodeFragment

/-- Go Userinfo.String. -/
def Userinfo.String (u : Userinfo) : List UInt8 :=
  escape u.username .encodeUserPassword ++
    (if u.passwordSet then bytes ":" ++ escape u.password .encodeUserPassword else [])

/-- Go URL.String. -/
def URL.String (u : URL) : List UInt8 :=
  let buf0 := if u.Scheme ≠ [] then u.Scheme ++ bytes ":" else []
  let buf1 :=
    if u.Opaque ≠ [] then buf0 ++ u.Opaque
    else
      let buf :=
        if u.Scheme ≠ [] || u.Host ≠ [] || u.User.isSome then
          if u.OmitHost && u.Host = [] && u.User.isNone then buf0
          else
            buf0 ++ (if u.Host ≠ [] || u.Path ≠ [] || u.User.isSome then bytes "//" else []) ++
              (match u.User with
                | some ui => ui.String ++ bytes "@"
                | none => []) ++
              (if u.Host ≠ [] then escape u.Host .encodeHost else [])
        else buf0
      let path := u.EscapedPath
      let buf :=
        if path ≠ [] && path.head? ≠ some (ascii '/') && u.Host ≠ [] then buf ++ bytes "/" else buf
      let buf :=
        if buf = [] && (cut (ascii '/') path).1.contains (ascii ':') then buf ++ bytes "./" else buf
      buf ++ path
  let buf2 := if u.ForceQuery || u.RawQuery ≠ [] then buf1 ++ bytes "?" ++ u.RawQuery else buf1
  if u.Fragment ≠ [] then buf2 ++ bytes "#" ++ u.EscapedFragment else buf2

/-- Go http.hasPort and http.removeEmptyPort. -/
def removeEmptyPort (host : List UInt8) : List UInt8 :=
  if lastIndexByte (ascii ':') host > lastIndexByte (ascii ']') host then
    (if endsWith host (bytes ":") then host.take (host.length - 1) else host)
  else host

/-- Go http.validMethod: a non-empty token. -/
def validMethod (method : List UInt8) : Bool :=
  method ≠ [] &&
    method.all fun c => isLetter c || isDigit c || (bytes "!#$%&\x27*+-.^_\x60|~").contains c

/-- Go http.NewRequest(method, url, nil): the method and the URL of the request it
builds, none when it returns an error. -/
def NewRequest (method url : List UInt8) : Option (List UInt8 × URL) :=
  let method := if method = [] then bytes "GET" else method
  if !validMethod method then none
  else
    match Parse url with
    | none => none
    | some u => some (method, { u with Host := removeEmptyPort u.Host })

/-- Go http.NewRequest as handleRequest calls it: the bytes of the method and of the
text URL.String gives for the request built, none when it returns an error. -/
def goNewRequest (method url : String) : Option (List UInt8 × List UInt8) :=
  (NewRequest (bytes method) (bytes url)).map fun built => (built.1, built.2.String)

/-! ## Fixtures and specification-side definitions -/

/-- A handle with the given token, an upstream on localhost and a client whose
dispatch fails; the fixture of the concrete evaluations. -/
def handleWith (token : String) : Handle :=
  { validToken := token, ollamaServer := "http://localhost:11434", listenerAddr := ":8080",
    keyFile := "", certFile := "", httpClient := fun _ => none }

/-- The outbound request handleRequest makes of an inbound request once
http.NewRequest has built the method and the URL text. -/
def outboundOf (r : Request) (built : List UInt8 × List UInt8) : OutReq :=
  { method := built.1, url := built.2,
    header := Header.Del r.header "Authorization", body := r.body }

/-- A stand-in for http.NewRequest that accepts every method and URL text and keeps
them as they are; the fixture of the evaluations that are not about the URL. -/
def keepText (method url : String) : Option (List UInt8 × List UInt8) :=
  some (bytes method, bytes url)

/-- A GET request for /api/tags carrying the given Authorization value and one
further header; the fixture of the concrete evaluations. -/
def requestWith (auth : String) : Request :=
  { method := "GET", url := "/api/tags",
    header := [("Authorization", [auth]), ("Accept", ["*/*"])],
    body := [], remoteAddr := "192.0.2.7:40000" }

/-- The events of relaying one chunk: it is read, written, flushed. -/
def chunkEvents (c : List UInt8) : List Event :=
  [Event.read { data := c, err := none }, Event.write c, Event.flush]

/-- The events of the last iteration, on end of stream. -/
def eofEvents : List Event :=
  [Event.read ReadResult.eof, Event.write [], Event.flush]

/-- A handle whose upstream answers every request with the given body reads. -/
def upstreamWith (token : String) (body : List ReadResult) : Handle :=
  { validToken := token, ollamaServer := "http://localhost:11434", listenerAddr := ":8080",
    keyFile := "", certFile := "",
    httpClient := fun _ => some { statusCode := 200, body := body } }

/-- A configuration with a key file and no certificate file. -/
def keyOnlyConfig : String :=
  "listener_addr::8080\nollama_server:http://localhost:11434\nauth_token:secret123\nkey_file:server.key"

/-- The handle keyOnlyConfig loads. -/
def keyOnlyHandle : Handle :=
  { validToken := "secret123", ollamaServer := "http://localhost:11434", listenerAddr := ":8080",
    keyFile := "server.key", certFile := "", httpClient := fun _ => none }

/-- The keys the switch of readConfig recognises. -/
inductive Key where
  | ollama_server
  | auth_token
  | listener_addr
  | key_file
  | cert_file
  deriving DecidableEq, Repr

/-- The text of a key as the switch spells it. -/
def Key.text : Key → String
  | .ollama_server => "ollama_server"
  | .auth_token => "auth_token"
  | .listener_addr => "listener_addr"
  | .key_file => "key_file"
  | .cert_file => "cert_file"

/-- What the case of a key stores for the value text v: the server URL and the
listener address are lower-cased, the other three fields take v as it is. -/
def Key.store (lowerRune : Char → Char) (handle : Handle) : Key → String → Handle
  | .ollama_server, v => { handle with ollamaServer := ToLower lowerRune v }
  | .auth_token, v => { handle with validToken := v }
  | .listener_addr, v => { handle with listenerAddr := ToLower lowerRune v }
  | .key_file, v => { handle with keyFile := v }
  | .cert_file, v => { handle with certFile := v }

/-- The configuration of the scenario, written with a space after each colon. -/
def scenarioConfig : String :=
  "ollama_server: http://localhost:11434\nauth_token: secret123\nlistener_addr: :8080"

/-- The handle scenarioConfig loads when the default client is one whose dispatch
fails: every value keeps the space that follows the colon. -/
def scenarioHandle : Handle :=
  { validToken := " secret123", ollamaServer := " http://localhost:11434",
    listenerAddr := " :8080", keyFile := "", certFile := "", httpClient := fun _ => none }

/-- The configuration of the scenario written without the space after the colons. -/
def compactConfig : String :=
  "ollama_server:http://localhost:11434\nauth_token:secret123\nlistener_addr::8080"

/-- A configuration whose upstream base URL has a space in its path. -/
def spacePathConfig : String :=
  "ollama_server:http://localhost:11434/a b\nauth_token:secret123\nlistener_addr::8080"

/-- The handle spacePathConfig loads. -/
def spacePathHandle : Handle :=
  { validToken := "secret123", ollamaServer := "http://localhost:11434/a b",
    listenerAddr := ":8080", keyFile := "", certFile := "", httpClient := fun _ => none }

/-- A request whose target is in absolute form, so that r.URL.String() is a full URL. -/
def absoluteFormRequest : Request :=
  { method := "GET", url := "http://evil.test/x",
    header := [("Authorization", ["Bearer secret123"])],
    body := [], remoteAddr := "192.0.2.7:40000" }

/-! ## Splitting: auxiliary facts -/

theorem splitChars_ne_nil (sep : Char) (l : List Char) : splitChars sep l ≠ [] := by
  cases l with
  | nil => simp [splitChars]
  | cons c cs =>
    unfold splitChars
    split
    · simp
    · split <;> simp

/-- Splitting cuts off the text before the first separator. -/
theorem splitChars_cons_sep (sep : Char) (a b : List Char) (ha : sep ∉ a) :
    splitChars sep (a ++ sep :: b) = a :: splitChars sep b := by
  induction a with
  | nil => simp [splitChars]
  | cons c cs ih =>
    have hc : c ≠ sep := fun e => ha (by simp [e])
    have hcs : sep ∉ cs := fun e => ha (by simp [e])
    simp [splitChars, hc, ih hcs]

/-- A text without the separator is a single part. -/
theorem splitChars_no_sep (sep : Char) (a : List Char) (ha : sep ∉ a) :
    splitChars sep a = [a] := by
  induction a with
  | nil => simp [splitChars]
  | cons c cs ih =>
    have hc : c ≠ sep := fun e => ha (by simp [e])
    have hcs : sep ∉ cs := fun e => ha (by simp [e])
    simp [splitChars, hc, ih hcs]

/-- Every text with a separator is a separator-free part, the separator, and a rest. -/
theorem exists_first_sep (sep : Char) (l : List Char) (h : sep ∈ l) :
    ∃ a b, l = a ++ sep :: b ∧ sep ∉ a := by
  induction l with
  | nil => simp at h
  | cons c cs ih =>
    by_cases hc : c = sep
    · exact ⟨[], cs, by simp [hc], by simp⟩
    · have hcs : sep ∈ cs := by
        rcases List.mem_cons.1 h with e | e
        · exact absurd e.symm hc
        · exact e
      obtain ⟨a, b, hab, ha⟩ := ih hcs
      refine ⟨c :: a, b, by simp [hab], ?_⟩
      intro hm
      rcases List.mem_cons.1 hm with e | e
      · exact hc e.symm
      · exact ha e

/-- Every text is a separator-free part followed by nothing or by the separator and a rest. -/
theorem exists_part (sep : Char) (l : List Char) :
    ∃ a, sep ∉ a ∧ (l = a ∨ ∃ b, l = a ++ sep :: b) := by
  by_cases h : sep ∈ l
  · obtain ⟨a, b, hab, ha⟩ := exists_first_sep sep l h
    exact ⟨a, ha, Or.inr ⟨b, hab⟩⟩
  · exact ⟨l, h, Or.inl rfl⟩

/-- The function authorized in terms of the parts of the header. -/
theorem authorized_of_parts (h : Handle) (hdr : String) :
    h.authorized hdr =
      match splitChars ' ' hdr.data with
      | [] => .error (.indexOutOfRange 0 0)
      | p0 :: rest =>
        if p0 = "Bearer".data then
          match rest with
          | [] => .error (.indexOutOfRange 1 1)
          | p1 :: _ => .ok (decide (p1 = h.validToken.data))
        else .ok false := by
  unfold Handle.authorized Split
  cases hs : splitChars ' ' hdr.data with
  | nil => rfl
  | cons p0 rest =>
    by_cases hp : p0 = "Bearer".data
    · cases rest with
      | nil => simp [index, hp, bind, Except.bind]
      | cons p1 more =>
        by_cases ht : p1 = h.validToken.data
        · simp [index, hp, ht, bind, Except.bind, pure, Except.pure]
        · have ht2 : String.mk p1 ≠ h.validToken := fun e => ht (by rw [← e])
          simp [index, hp, ht, ht2, bind, Except.bind, pure, Except.pure]
    · have hp2 : String.mk p0 ≠ "Bearer" := fun e => hp (by rw [← e])
      simp [index, hp, hp2, bind, Except.bind, pure, Except.pure]

/-! ## Authorization -/

theorem bearer_no_space : ' ' ∉ "Bearer".data := by decide

/-- The header made of the scheme word, one space and a rest splits after the word. -/
theorem split_bearer (rest : List Char) :
    splitChars ' ' ("Bearer ".data ++ rest) = "Bearer".data :: splitChars ' ' rest := by
  have h := splitChars_cons_sep ' ' "Bearer".data rest bearer_no_space
  simpa using h

/-- C1, refuted as stated: with the non-empty token "a b" the header made of the
word Bearer, one space and the token is rejected, because the header is split at
every space and part 1 is only the text "a". -/
theorem authorized_token_with_space_rejected :
    "a b" ≠ "" ∧ (handleWith "a b").authorized ("Bearer " ++ "a b") = .ok false := by
  decide

/-- C1, amended: for every non-empty configured token without a space character, the
header made of the word Bearer, exactly one space and the token is accepted. -/
theorem authorized_accepts_exact (h : Handle) (_hne : h.validToken ≠ "")
    (hsp : ' ' ∉ h.validToken.data) :
    h.authorized ("Bearer " ++ h.validToken) = .ok true := by
  rw [authorized_of_parts]
  have hd : ("Bearer " ++ h.validToken).data = "Bearer ".data ++ h.validToken.data := by
    simp
  rw [hd, split_bearer, splitChars_no_sep ' ' _ hsp]
  simp

theorem authorized_accepts_exact_witness :
    (handleWith "secret123").validToken ≠ "" ∧ ' ' ∉ (handleWith "secret123").validToken.data ∧
      (handleWith "secret123").authorized ("Bearer " ++ (handleWith "secret123").validToken)
        = .ok true :=
  ⟨by decide, by decide,
    authorized_accepts_exact (handleWith "secret123") (by decide) (by decide)⟩

/-- The function authorized on a header whose text is a space-free part a, a space,
a space-free part p, and then either nothing or a space and more text. -/
theorem authorized_two_parts (h : Handle) (hdr : String) (a p : List Char)
    (ha : ' ' ∉ a) (hp : ' ' ∉ p)
    (hd : hdr.data = a ++ ' ' :: p ∨ ∃ c, hdr.data = a ++ ' ' :: (p ++ ' ' :: c)) :
    h.authorized hdr = .ok (decide (a = "Bearer".data ∧ p = h.validToken.data)) := by
  rw [authorized_of_parts]
  rcases hd with hd | ⟨c, hd⟩
  · rw [hd, splitChars_cons_sep ' ' a p ha, splitChars_no_sep ' ' p hp]
    by_cases h1 : a = "Bearer".data <;> simp [h1]
  · rw [hd, splitChars_cons_sep ' ' a _ ha, splitChars_cons_sep ' ' p c hp]
    by_cases h1 : a = "Bearer".data <;> simp [h1]

/-- C2, refuted as stated: with the token "tok" the header "Bearer tok x" contains a
space, is not the word Bearer, a space and the token, and is accepted. -/
theorem authorized_accepts_trailing_part :
    ' ' ∈ "Bearer tok x".data ∧ "Bearer tok x" ≠ "Bearer " ++ "tok" ∧
      "Bearer tok x" = "Bearer " ++ "tok" ++ " x" ∧ " x" ≠ "" ∧
      (handleWith "tok").authorized "Bearer tok x" = .ok true := by
  decide

/-- C2, amended: for every configured token t and every header with at least one
space, authorized returns without an index error, and it accepts exactly when t has
no space and the header is the word Bearer, a space and t, either ending there or
going on with a space and any further text (the header is split at every space and
only parts 0 and 1 are compared); in particular the word Bearer, a space, t and a
non-empty x that does not begin with a space is rejected. -/
theorem authorized_header_with_space (h : Handle) (hdr : String) (hsp : ' ' ∈ hdr.data) :
    (h.authorized hdr = .ok true ∨ h.authorized hdr = .ok false) ∧
    (h.authorized hdr = .ok true ↔
      (' ' ∉ h.validToken.data ∧
        (hdr = "Bearer " ++ h.validToken ∨
          ∃ y : String, hdr = "Bearer " ++ h.validToken ++ " " ++ y))) ∧
    (∀ x : String, x ≠ "" → x.data.head? ≠ some ' ' →
      hdr = "Bearer " ++ h.validToken ++ x → h.authorized hdr = .ok false) := by
  obtain ⟨a, b, hab, ha⟩ := exists_first_sep ' ' hdr.data hsp
  obtain ⟨p, hp, hb⟩ := exists_part ' ' b
  have hd : hdr.data = a ++ ' ' :: p ∨ ∃ c, hdr.data = a ++ ' ' :: (p ++ ' ' :: c) := by
    rcases hb with hb | ⟨c, hb⟩
    · exact Or.inl (by rw [hab, hb])
    · exact Or.inr ⟨c, by rw [hab, hb]⟩
  have hval := authorized_two_parts h hdr a p ha hp hd
  have hbool : h.authorized hdr = .ok true ∨ h.authorized hdr = .ok false := by
    rw [hval]
    by_cases hc : a = "Bearer".data ∧ p = h.validToken.data
    · exact Or.inl (by simp [hc])
    · exact Or.inr (by simp [hc])
  have hiff : h.authorized hdr = .ok true ↔
      (' ' ∉ h.validToken.data ∧
        (hdr = "Bearer " ++ h.validToken ∨
          ∃ y : String, hdr = "Bearer " ++ h.validToken ++ " " ++ y)) := by
    constructor
    · intro hacc
      rw [hval] at hacc
      have hc : a = "Bearer".data ∧ p = h.validToken.data := by
        by_contra hn
        simp [hn] at hacc
      obtain ⟨h1, h2⟩ := hc
      refine ⟨by rw [← h2]; exact hp, ?_⟩
      rcases hd with hd | ⟨c, hd⟩
      · left
        apply String.ext
        rw [hd, h1, h2]
        simp
      · right
        refine ⟨String.mk c, ?_⟩
        apply String.ext
        rw [hd, h1, h2]
        simp
    · rintro ⟨hns, hform⟩
      rcases hform with hform | ⟨y, hform⟩
      · have hd2 : hdr.data = "Bearer".data ++ ' ' :: h.validToken.data := by
          rw [hform]; simp
        rw [authorized_two_parts h hdr _ _ bearer_no_space hns (Or.inl hd2)]
        simp
      · have hd2 : hdr.data = "Bearer".data ++ ' ' :: (h.validToken.data ++ ' ' :: y.data) := by
          rw [hform]; simp
        rw [authorized_two_parts h hdr _ _ bearer_no_space hns (Or.inr ⟨y.data, hd2⟩)]
        simp
  refine ⟨hbool, hiff, ?_⟩
  intro x hx hhead hform
  rcases hbool with ht | hf
  · exfalso
    obtain ⟨_, hcase⟩ := hiff.1 ht
    rcases hcase with hc | ⟨y, hc⟩
    · have e := congrArg String.data (hform.symm.trans hc)
      simp at e
      exact hx (String.ext (by simpa using e))
    · have e := congrArg String.data (hform.symm.trans hc)
      simp at e
      rw [e] at hhead
      simp at hhead
  · exact hf

theorem authorized_header_with_space_witness :
    ' ' ∈ "Bearer tok x".data ∧
    ((handleWith "tok").authorized "Bearer tok x" = .ok true ∨
        (handleWith "tok").authorized "Bearer tok x" = .ok false) ∧
    ((handleWith "tok").authorized "Bearer tok x" = .ok true ↔
      (' ' ∉ (handleWith "tok").validToken.data ∧
        ("Bearer tok x" = "Bearer " ++ (handleWith "tok").validToken ∨
          ∃ y : String, "Bearer tok x" = "Bearer " ++ (handleWith "tok").validToken ++ " " ++ y))) ∧
    (∀ x : String, x ≠ "" → x.data.head? ≠ some ' ' →
      "Bearer tok x" = "Bearer " ++ (handleWith "tok").validToken ++ x →
      (handleWith "tok").authorized "Bearer tok x" = .ok false) :=
  ⟨by decide, authorized_header_with_space (handleWith "tok") "Bearer tok x" (by decide)⟩

/-- C3, the failing input: on the bare scheme word, which has no space, the split
gives one part, part 0 equals the word Bearer and the access to part 1 is out of
range, so authorized panics instead of rejecting. -/
theorem authorized_bare_scheme_panics (h : Handle) :
    h.authorized "Bearer" = .error (.indexOutOfRange 1 1) := by
  rw [authorized_of_parts]
  rfl

/-- Every other header without a space is rejected without an index error. -/
theorem authorized_no_space_rejects (h : Handle) (hdr : String) (hsp : ' ' ∉ hdr.data)
    (hne : hdr ≠ "Bearer") : h.authorized hdr = .ok false := by
  rw [authorized_of_parts, splitChars_no_sep ' ' _ hsp]
  have : hdr.data ≠ "Bearer".data := fun e => hne (String.ext e)
  simp [this]

/-! ## The request handler -/

/-- The handler on a rejected header. -/
theorem handleRequest_rejected (h : Handle)
    (newRequest : String → String → Option (List UInt8 × List UInt8))
    (w : ResponseWriter) (r : Request)
    (hrej : h.authorized (Header.Get r.header "Authorization") = .ok false) :
    h.handleRequest newRequest w r
      = .ok (Run.Error { w := w, upstream := [], trace := [] } "Unauthorized" 401) := by
  unfold Handle.handleRequest
  rw [hrej]
  rfl

/-- The handler on an accepted header. -/
theorem handleRequest_accepted (h : Handle)
    (newRequest : String → String → Option (List UInt8 × List UInt8))
    (w : ResponseWriter) (r : Request)
    (hacc : h.authorized (Header.Get r.header "Authorization") = .ok true) :
    h.handleRequest newRequest w r
      = .ok (match newRequest r.method (h.ollamaServer ++ r.url) with
        | none => Run.Error { w := w, upstream := [], trace := [] } "Bad request" 400
        | some built =>
          match h.httpClient (outboundOf r built) with
          | none =>
            Run.Error { w := w, upstream := [outboundOf r built], trace := [] }
              "Request failed" 502
          | some resp =>
            relay { w := w.SetHeader "Content-Type" "application/json",
                    upstream := [outboundOf r built], trace := [] } resp.body) := by
  unfold Handle.handleRequest
  rw [hacc]
  cases hn : newRequest r.method (h.ollamaServer ++ r.url) with
  | none => simp [hn, bind, Except.bind, pure, Except.pure]
  | some built =>
    cases hc : h.httpClient (outboundOf r built) with
    | none =>
      simp only [outboundOf] at hc
      simp [hn, hc, bind, Except.bind, pure, Except.pure, outboundOf]
    | some resp =>
      simp only [outboundOf] at hc
      simp [hn, hc, bind, Except.bind, pure, Except.pure, outboundOf]

theorem Error_upstream (run : Run) (msg : String) (code : Nat) :
    (run.Error msg code).upstream = run.upstream := rfl

theorem relayStep_upstream (run : Run) (r : ReadResult) :
    (relayStep run r).1.upstream = run.upstream := by
  unfold relayStep
  split
  · rfl
  · split <;> rfl

/-- The relay loop hands nothing to the upstream client. -/
theorem relay_upstream (body : List ReadResult) (run : Run) :
    (relay run body).upstream = run.upstream := by
  induction body generalizing run with
  | nil => exact relayStep_upstream run _
  | cons r rest ih =>
    unfold relay
    have h1 := relayStep_upstream run r
    cases hs : relayStep run r with
    | mk run1 b =>
      rw [hs] at h1
      cases b
      · exact h1
      · simp only []
        rw [ih run1]
        exact h1

/-- The requests an authorized run hands to the upstream client: none when
http.NewRequest returns an error, else exactly the one request made of what it
built. -/
theorem handleRequest_accepted_upstream (h : Handle)
    (newRequest : String → String → Option (List UInt8 × List UInt8))
    (w : ResponseWriter) (r : Request)
    (hacc : h.authorized (Header.Get r.header "Authorization") = .ok true) :
    ∃ run, h.handleRequest newRequest w r = .ok run ∧
      run.upstream = match newRequest r.method (h.ollamaServer ++ r.url) with
        | none => []
        | some built => [outboundOf r built] := by
  rw [handleRequest_accepted h newRequest w r hacc]
  refine ⟨_, rfl, ?_⟩
  cases newRequest r.method (h.ollamaServer ++ r.url) with
  | none => rfl
  | some built =>
    simp only []
    cases h.httpClient (outboundOf r built) with
    | none => rfl
    | some resp => exact relay_upstream _ _

/-- C4: when authorized rejects the Authorization header value, handleRequest
answers with status 401 and the message Unauthorized (http.Error ends it with a line
feed) as the body, hands no request to the upstream client and reads nothing from
upstream. -/
theorem handleRequest_unauthorized_401 (h : Handle)
    (newRequest : String → String → Option (List UInt8 × List UInt8)) (r : Request)
    (hrej : h.authorized (Header.Get r.header "Authorization") = .ok false) :
    ∃ run, h.handleRequest newRequest ResponseWriter.fresh r = .ok run ∧
      run.w.status = some 401 ∧
      run.w.body = bytes "Unauthorized" ++ bytes "\n" ∧
      run.upstream = [] ∧
      run.trace = [Event.write (bytes "Unauthorized" ++ bytes "\n")] := by
  rw [handleRequest_rejected h newRequest _ r hrej]
  refine ⟨_, rfl, rfl, ?_, rfl, ?_⟩ <;>
    simp [Run.Error, ResponseWriter.Write, ResponseWriter.WriteHeader,
      ResponseWriter.SetHeader, ResponseWriter.fresh, bytes]

theorem handleRequest_unauthorized_401_witness :
    (handleWith "secret123").authorized
        (Header.Get (requestWith "Bearer wrong").header "Authorization") = .ok false ∧
    ∃ run, (handleWith "secret123").handleRequest keepText ResponseWriter.fresh
        (requestWith "Bearer wrong") = .ok run ∧
      run.w.status = some 401 ∧
      run.w.body = bytes "Unauthorized" ++ bytes "\n" ∧
      run.upstream = [] ∧
      run.trace = [Event.write (bytes "Unauthorized" ++ bytes "\n")] :=
  ⟨by decide,
    handleRequest_unauthorized_401 (handleWith "secret123") keepText
      (requestWith "Bearer wrong") (by decide)⟩

/-- C5: for an inbound request that passes authorization, every request handed to
the upstream client (exactly one when the outbound request can be built) has no
Authorization entry in its header set, holds every other inbound header entry
unchanged, and holds nothing else. -/
theorem outbound_header_without_authorization (h : Handle)
    (newRequest : String → String → Option (List UInt8 × List UInt8)) (r : Request)
    (hacc : h.authorized (Header.Get r.header "Authorization") = .ok true) :
    ∃ run, h.handleRequest newRequest ResponseWriter.fresh r = .ok run ∧
      ((newRequest r.method (h.ollamaServer ++ r.url)).isSome = true →
        run.upstream.length = 1) ∧
      ∀ q ∈ run.upstream,
        (∀ e ∈ q.header, e.1 ≠ "Authorization") ∧
        (∀ e ∈ r.header, e.1 ≠ "Authorization" → e ∈ q.header) ∧
        (∀ e ∈ q.header, e ∈ r.header) := by
  obtain ⟨run, hrun, hup⟩ :=
    handleRequest_accepted_upstream h newRequest ResponseWriter.fresh r hacc
  refine ⟨run, hrun, ?_, ?_⟩
  · intro hok
    rw [hup]
    cases hn : newRequest r.method (h.ollamaServer ++ r.url) with
    | none => simp [hn] at hok
    | some built => rfl
  · intro q hq
    rw [hup] at hq
    cases hn : newRequest r.method (h.ollamaServer ++ r.url) with
    | none => simp [hn] at hq
    | some built =>
      simp only [hn, List.mem_singleton] at hq
      subst hq
      refine ⟨?_, ?_, ?_⟩
      · intro e he
        simp only [outboundOf, Header.Del, List.mem_filter] at he
        simpa using he.2
      · intro e he hne
        simp only [outboundOf, Header.Del, List.mem_filter]
        exact ⟨he, by simpa using hne⟩
      · intro e he
        simp only [outboundOf, Header.Del, List.mem_filter] at he
        exact he.1

theorem outbound_header_without_authorization_witness :
    (handleWith "secret123").authorized
        (Header.Get (requestWith "Bearer secret123").header "Authorization") = .ok true ∧
    ∃ run, (handleWith "secret123").handleRequest keepText ResponseWriter.fresh
        (requestWith "Bearer secret123") = .ok run ∧
      ((keepText (requestWith "Bearer secret123").method
          ((handleWith "secret123").ollamaServer ++ (requestWith "Bearer secret123").url)).isSome
          = true →
        run.upstream.length = 1) ∧
      ∀ q ∈ run.upstream,
        (∀ e ∈ q.header, e.1 ≠ "Authorization") ∧
        (∀ e ∈ (requestWith "Bearer secret123").header, e.1 ≠ "Authorization" → e ∈ q.header) ∧
        (∀ e ∈ q.header, e ∈ (requestWith "Bearer secret123").header) :=
  ⟨by decide,
    outbound_header_without_authorization (handleWith "secret123") keepText
      (requestWith "Bearer secret123") (by decide)⟩

set_option maxRecDepth 100000

theorem utf8EncodeChar_ne_nil (c : Char) : String.utf8EncodeChar c ≠ [] := by
  simp only [String.utf8EncodeChar]
  split_ifs <;> simp

theorem bytes_eq_nil (s : String) (hs : bytes s = []) : s = "" := by
  apply String.ext
  cases hd : s.data with
  | nil => rfl
  | cons c cs =>
    exfalso
    simp only [bytes, hd, List.flatMap_cons, List.append_eq_nil] at hs
    exact utf8EncodeChar_ne_nil c hs.1

/-- What http.NewRequest builds: the method handed in unless that is empty, and the
parsed URL with an empty port removed. -/
theorem NewRequest_built (method url m : List UInt8) (u : URL)
    (hb : NewRequest method url = some (m, u)) :
    (method ≠ [] → m = method) ∧
    ∃ p, Parse url = some p ∧ u = { p with Host := removeEmptyPort p.Host } := by
  unfold NewRequest at hb
  simp only [] at hb
  by_cases hv : (!validMethod (if method = [] then bytes "GET" else method)) = true
  · rw [if_pos hv] at hb
    exact absurd hb (by simp)
  · rw [if_neg hv] at hb
    cases hp : Parse url with
    | none =>
      rw [hp] at hb
      exact absurd hb (by simp)
    | some p =>
      rw [hp] at hb
      simp only [Option.some.injEq, Prod.mk.injEq] at hb
      refine ⟨?_, p, rfl, hb.2.symm⟩
      intro hne
      rw [← hb.1, if_neg hne]

/-- C6, refuted as stated: the configuration line ollama_server:http://localhost:11434/a b
loads a base URL with a space; for the authorized request GET /api/tags the one
request handed to the upstream client has the URL text
http://localhost:11434/a%20b/api/tags, which is not the base URL followed by
/api/tags: url.Parse inside http.NewRequest re-encoded the space.  For a request
target in absolute form the empty port that the concatenation creates is
dropped. -/
theorem outbound_url_reencoded :
    readConfig id (fun _ => none) (some spacePathConfig) = .ok spacePathHandle ∧
    spacePathHandle.authorized
        (Header.Get (requestWith "Bearer secret123").header "Authorization") = .ok true ∧
    (spacePathHandle.handleRequest goNewRequest ResponseWriter.fresh
          (requestWith "Bearer secret123")).map (fun run => run.upstream.map (fun q => q.url))
      = .ok [bytes "http://localhost:11434/a%20b/api/tags"] ∧
    bytes "http://localhost:11434/a%20b/api/tags"
      ≠ bytes (spacePathHandle.ollamaServer ++ (requestWith "Bearer secret123").url) ∧
    ((handleWith "secret123").handleRequest goNewRequest ResponseWriter.fresh
          absoluteFormRequest).map (fun run => run.upstream.map (fun q => q.url))
      = .ok [bytes "http://localhost:11434http//evil.test/x"] ∧
    bytes "http://localhost:11434http//evil.test/x"
      ≠ bytes ((handleWith "secret123").ollamaServer ++ absoluteFormRequest.url) :=
  ⟨rfl, by decide, by decide, by decide, by decide, by decide⟩

/-- C6, amended: for every authorized inbound request with method M and
path-and-query text P, handleRequest hands http.NewRequest the method M and the text
B followed by P, where B is the loaded upstream base URL (the field readConfig
stores, the configured text lower-cased).  When http.NewRequest returns an error the
client gets status 400 and nothing is dispatched; otherwise exactly one request is
dispatched, its method is the one http.NewRequest built, which is M for a non-empty
M, and its URL is url.Parse of the text B followed by P with an empty port removed,
written back by URL.String.  That text is B followed by P itself for
B = http://localhost:11434 and P = /api/tags, while a space in the path is written
as %20. -/
theorem outbound_method_and_url (h : Handle) (r : Request)
    (hacc : h.authorized (Header.Get r.header "Authorization") = .ok true) :
    ∃ run, h.handleRequest goNewRequest ResponseWriter.fresh r = .ok run ∧
      (NewRequest (bytes r.method) (bytes (h.ollamaServer ++ r.url)) = none →
        run.upstream = [] ∧ run.w.status = some 400) ∧
      (∀ m u, NewRequest (bytes r.method) (bytes (h.ollamaServer ++ r.url)) = some (m, u) →
        (∃ q, run.upstream = [q] ∧ q.method = m ∧ q.url = u.String) ∧
        (r.method ≠ "" → m = bytes r.method) ∧
        (∃ p, Parse (bytes (h.ollamaServer ++ r.url)) = some p ∧
          u = { p with Host := removeEmptyPort p.Host })) ∧
      goNewRequest "GET" ("http://localhost:11434" ++ "/api/tags")
        = some (bytes "GET", bytes ("http://localhost:11434" ++ "/api/tags")) ∧
      goNewRequest "GET" ("http://localhost:11434/a b" ++ "/api/tags")
        = some (bytes "GET", bytes "http://localhost:11434/a%20b/api/tags") := by
  obtain ⟨run, hrun, hup⟩ :=
    handleRequest_accepted_upstream h goNewRequest ResponseWriter.fresh r hacc
  have hrun2 := hrun
  rw [handleRequest_accepted h goNewRequest _ r hacc] at hrun2
  refine ⟨run, hrun, ?_, ?_, by decide, by decide⟩
  · intro hn
    have hg : goNewRequest r.method (h.ollamaServer ++ r.url) = none := by
      simp [goNewRequest, hn]
    rw [hg] at hup hrun2
    refine ⟨hup, ?_⟩
    injection hrun2 with hrun2
    rw [← hrun2]
    rfl
  · intro m u hb
    have hg : goNewRequest r.method (h.ollamaServer ++ r.url) = some (m, u.String) := by
      simp [goNewRequest, hb]
    rw [hg] at hup
    obtain ⟨hm, hp⟩ := NewRequest_built _ _ m u hb
    refine ⟨⟨_, hup, rfl, rfl⟩, ?_, hp⟩
    intro hne
    exact hm (fun e => hne (bytes_eq_nil _ e))

theorem outbound_method_and_url_witness :
    (handleWith "secret123").authorized
        (Header.Get (requestWith "Bearer secret123").header "Authorization") = .ok true ∧
    ∃ run, (handleWith "secret123").handleRequest goNewRequest ResponseWriter.fresh
        (requestWith "Bearer secret123") = .ok run ∧
      (NewRequest (bytes (requestWith "Bearer secret123").method)
          (bytes ((handleWith "secret123").ollamaServer ++ (requestWith "Bearer secret123").url))
          = none →
        run.upstream = [] ∧ run.w.status = some 400) ∧
      (∀ m u, NewRequest (bytes (requestWith "Bearer secret123").method)
          (bytes ((handleWith "secret123").ollamaServer ++ (requestWith "Bearer secret123").url))
          = some (m, u) →
        (∃ q, run.upstream = [q] ∧ q.method = m ∧ q.url = u.String) ∧
        ((requestWith "Bearer secret123").method ≠ "" →
          m = bytes (requestWith "Bearer secret123").method) ∧
        (∃ p, Parse (bytes ((handleWith "secret123").ollamaServer ++
              (requestWith "Bearer secret123").url)) = some p ∧
          u = { p with Host := removeEmptyPort p.Host })) ∧
      goNewRequest "GET" ("http://localhost:11434" ++ "/api/tags")
        = some (bytes "GET", bytes ("http://localhost:11434" ++ "/api/tags")) ∧
      goNewRequest "GET" ("http://localhost:11434/a b" ++ "/api/tags")
        = some (bytes "GET", bytes "http://localhost:11434/a%20b/api/tags") :=
  ⟨by decide,
    outbound_method_and_url (handleWith "secret123") (requestWith "Bearer secret123")
      (by decide)⟩

/-! ## The relay loop -/

theorem WriteHeader_status_isSome (w : ResponseWriter) (code : Nat) :
    ∃ s, (w.WriteHeader code).status = some s := by
  unfold ResponseWriter.WriteHeader
  cases hs : w.status with
  | none => exact ⟨code, rfl⟩
  | some s => exact ⟨s, by simp [hs]⟩

theorem WriteHeader_of_sent (w : ResponseWriter) (code s : Nat) (hs : w.status = some s) :
    w.WriteHeader code = w := by
  unfold ResponseWriter.WriteHeader
  simp [hs]

theorem Write_status_isSome (w : ResponseWriter) (d : List UInt8) :
    ∃ s, (w.Write d).status = some s := by
  obtain ⟨s, hs⟩ := WriteHeader_status_isSome w 200
  exact ⟨s, by simpa [ResponseWriter.Write] using hs⟩

theorem Write_Flush (w : ResponseWriter) (d : List UInt8) : (w.Write d).Flush = w.Write d := by
  obtain ⟨s, hs⟩ := Write_status_isSome w d
  exact WriteHeader_of_sent _ 200 s hs

theorem Write_body (w : ResponseWriter) (d : List UInt8) : (w.Write d).body = w.body ++ d := by
  unfold ResponseWriter.Write ResponseWriter.WriteHeader
  cases w.status <;> rfl

theorem Write_status (w : ResponseWriter) (d : List UInt8) :
    (w.Write d).status = some (w.status.getD 200) := by
  unfold ResponseWriter.Write ResponseWriter.WriteHeader
  cases hs : w.status <;> simp [hs]

/-- One iteration on a non-empty chunk read without error: the chunk is written and
flushed and the loop goes on. -/
theorem relayStep_chunk (run : Run) (c : List UInt8) (hc : c ≠ []) :
    relayStep run { data := c, err := none }
      = ({ run with w := run.w.Write c, trace := run.trace ++ chunkEvents c }, true) := by
  have hl : c.length ≠ 0 := fun e => hc (List.length_eq_zero.1 e)
  simp [relayStep, Run.WriteFlush, Write_Flush, chunkEvents, hl]

/-- The iteration on end of stream: an empty write, a flush, and the loop ends. -/
theorem relayStep_eof (run : Run) :
    relayStep run ReadResult.eof
      = ({ run with w := run.w.Write [], trace := run.trace ++ eofEvents }, false) := by
  simp [relayStep, Run.WriteFlush, Write_Flush, eofEvents, ReadResult.eof]

/-- The loop over a script of non-empty chunks followed by end of stream. -/
theorem relay_chunks (cs : List (List UInt8)) (hne : ∀ c ∈ cs, c ≠ []) (run : Run) :
    ∃ out, relay run (cs.map (fun c => { data := c, err := none }) ++ [ReadResult.eof]) = out ∧
      out.w.body = run.w.body ++ cs.flatten ∧
      out.w.status = some (run.w.status.getD 200) ∧
      out.upstream = run.upstream ∧
      out.trace = run.trace ++ (cs.flatMap chunkEvents ++ eofEvents) := by
  induction cs generalizing run with
  | nil =>
    refine ⟨_, rfl, ?_, ?_, ?_, ?_⟩ <;>
      simp [relay, relayStep_eof, Write_body, Write_status]
  | cons c rest ih =>
    have hc : c ≠ [] := hne c (by simp)
    have hrest : ∀ d ∈ rest, d ≠ [] := fun d hd => hne d (by simp [hd])
    obtain ⟨out, hout, hb, hs, hu, ht⟩ :=
      ih hrest { run with w := run.w.Write c, trace := run.trace ++ chunkEvents c }
    refine ⟨out, ?_, ?_, ?_, ?_, ?_⟩
    · rw [← hout]
      simp [relay, relayStep_chunk run c hc]
    · rw [hb]; simp [Write_body]
    · rw [hs]; simp [Write_status]
    · rw [hu]
    · rw [ht]; simp

/-- In a trace of chunk events closed by the end-of-stream events, every write is
directly followed by a flush. -/
theorem chunk_trace_write_flush (cs : List (List UInt8)) (i : Nat) (d : List UInt8)
    (hw : (cs.flatMap chunkEvents ++ eofEvents).get? i = some (Event.write d)) :
    (cs.flatMap chunkEvents ++ eofEvents).get? (i + 1) = some Event.flush := by
  induction cs generalizing i with
  | nil =>
    match i with
    | 0 => simp [eofEvents] at hw
    | 1 => simp [eofEvents]
    | 2 => simp [eofEvents] at hw
    | n + 3 => simp [eofEvents] at hw
  | cons c rest ih =>
    match i with
    | 0 => simp [chunkEvents] at hw
    | 1 => simp [chunkEvents]
    | 2 => simp [chunkEvents] at hw
    | n + 3 =>
      simp only [List.flatMap_cons, chunkEvents, List.cons_append, List.nil_append,
        List.get?_cons_succ] at hw ⊢
      exact ih n hw

/-- In such a trace the events of chunk number i stand at the places 3i, 3i+1, 3i+2. -/
theorem chunk_trace_positions (cs : List (List UInt8)) (i : Nat) (c : List UInt8)
    (hi : cs.get? i = some c) :
    (cs.flatMap chunkEvents ++ eofEvents).get? (3 * i)
        = some (Event.read { data := c, err := none }) ∧
    (cs.flatMap chunkEvents ++ eofEvents).get? (3 * i + 1) = some (Event.write c) ∧
    (cs.flatMap chunkEvents ++ eofEvents).get? (3 * i + 2) = some Event.flush := by
  induction cs generalizing i with
  | nil => simp at hi
  | cons c0 rest ih =>
    match i with
    | 0 =>
      simp at hi
      subst hi
      simp [chunkEvents]
    | n + 1 =>
      have hn : rest.get? n = some c := by simpa using hi
      have e0 : 3 * (n + 1) = (3 * n) + 1 + 1 + 1 := by ring
      have e1 : 3 * (n + 1) + 1 = (3 * n + 1) + 1 + 1 + 1 := by ring
      have e2 : 3 * (n + 1) + 2 = (3 * n + 2) + 1 + 1 + 1 := by ring
      rw [e2, e1, e0]
      simp only [List.flatMap_cons, chunkEvents, List.cons_append, List.nil_append,
        List.get?_cons_succ]
      exact ih n hn

theorem chunk_trace_flush_count (cs : List (List UInt8)) :
    (cs.flatMap chunkEvents ++ eofEvents).count Event.flush = cs.length + 1 := by
  induction cs with
  | nil => decide
  | cons c rest ih =>
    simp only [List.flatMap_cons, chunkEvents, List.cons_append, List.nil_append,
      List.length_cons]
    rw [List.count_cons_of_ne (by simp), List.count_cons_of_ne (by simp), List.count_cons_self]
    simpa [chunkEvents] using ih

/-- C7: when an authorized request is dispatched successfully and the body reads of
the upstream response return the non-empty chunks cs (each at most 4096 bytes, no
read error) and then end of stream, handleRequest succeeds with status 200, the
bytes written to the client are the chunks concatenated in order, the trace is
read, write, flush for each chunk in turn and then the closing read, empty write
and flush; so every write is directly followed by a flush, there are at least as
many flushes as chunks, and the flush of chunk i comes right after chunk i is read
and written, before the next read. -/
theorem relay_streams_chunks (h : Handle)
    (newRequest : String → String → Option (List UInt8 × List UInt8)) (r : Request)
    (built : List UInt8 × List UInt8) (resp : Response) (cs : List (List UInt8))
    (hacc : h.authorized (Header.Get r.header "Authorization") = .ok true)
    (hok : newRequest r.method (h.ollamaServer ++ r.url) = some built)
    (hdo : h.httpClient (outboundOf r built) = some resp)
    (hbody : resp.body = cs.map (fun c => { data := c, err := none }) ++ [ReadResult.eof])
    (hne : ∀ c ∈ cs, c ≠ [] ∧ c.length ≤ 4096) :
    ∃ run, h.handleRequest newRequest ResponseWriter.fresh r = .ok run ∧
      run.w.status = some 200 ∧
      run.w.body = cs.flatten ∧
      run.trace = cs.flatMap chunkEvents ++ eofEvents ∧
      (∀ i d, run.trace.get? i = some (Event.write d) →
        run.trace.get? (i + 1) = some Event.flush) ∧
      cs.length ≤ run.trace.count Event.flush ∧
      (∀ i c, cs.get? i = some c →
        run.trace.get? (3 * i) = some (Event.read { data := c, err := none }) ∧
        run.trace.get? (3 * i + 1) = some (Event.write c) ∧
        run.trace.get? (3 * i + 2) = some Event.flush) := by
  rw [handleRequest_accepted h newRequest _ r hacc]
  obtain ⟨out, hout, hb, hs, _, ht⟩ := relay_chunks cs (fun c hc => (hne c hc).1)
    { w := ResponseWriter.fresh.SetHeader "Content-Type" "application/json",
      upstream := [outboundOf r built], trace := [] }
  refine ⟨out, ?_, ?_, ?_, ?_, ?_, ?_, ?_⟩
  · simp only [hok, hdo, hbody]
    rw [← hout]
  · rw [hs]; rfl
  · rw [hb]; simp [ResponseWriter.SetHeader, ResponseWriter.fresh]
  · rw [ht]; simp
  · intro i d hw
    rw [ht] at hw ⊢
    simp only [List.nil_append] at hw ⊢
    exact chunk_trace_write_flush cs i d hw
  · rw [ht]
    simp only [List.nil_append]
    rw [chunk_trace_flush_count]
    exact Nat.le_succ _
  · intro i c hi
    rw [ht]
    simp only [List.nil_append]
    exact chunk_trace_positions cs i c hi

theorem relay_streams_chunks_witness :
    ∃ run, (upstreamWith "secret123"
          [{ data := [1, 2], err := none }, { data := [3], err := none }, ReadResult.eof]).handleRequest
        keepText ResponseWriter.fresh (requestWith "Bearer secret123") = .ok run ∧
      run.w.status = some 200 ∧
      run.w.body = [[1, 2], [3]].flatten ∧
      run.trace = [[1, 2], [3]].flatMap chunkEvents ++ eofEvents ∧
      (∀ i d, run.trace.get? i = some (Event.write d) →
        run.trace.get? (i + 1) = some Event.flush) ∧
      [[(1 : UInt8), 2], [3]].length ≤ run.trace.count Event.flush ∧
      (∀ i c, [[(1 : UInt8), 2], [3]].get? i = some c →
        run.trace.get? (3 * i) = some (Event.read { data := c, err := none }) ∧
        run.trace.get? (3 * i + 1) = some (Event.write c) ∧
        run.trace.get? (3 * i + 2) = some Event.flush) :=
  relay_streams_chunks
    (upstreamWith "secret123"
      [{ data := [1, 2], err := none }, { data := [3], err := none }, ReadResult.eof])
    keepText (requestWith "Bearer secret123")
    (bytes "GET", bytes "http://localhost:11434/api/tags")
    { statusCode := 200,
      body := [{ data := [1, 2], err := none }, { data := [3], err := none }, ReadResult.eof] }
    [[1, 2], [3]] (by decide) rfl rfl rfl (by decide)

/-- One iteration on a read that fails with an error other than end of stream:
http.Error with 502 and the loop ends; the bytes of that read are dropped. -/
theorem relayStep_error (run : Run) (d : List UInt8) :
    relayStep run { data := d, err := some .other }
      = (Run.Error { run with trace := run.trace ++ [Event.read { data := d, err := some .other }] }
          "Request failed" 502, false) := by
  simp [relayStep]

/-- The loop over non-empty chunks followed by a failing read: the chunks stay written,
the line Request failed is appended, and the status is the one already sent with
the first write, 502 only when nothing was sent before. -/
theorem relay_chunks_then_error (cs : List (List UInt8)) (hne : ∀ c ∈ cs, c ≠ [])
    (d : List UInt8) (rest : List ReadResult) (run : Run) :
    (relay run (cs.map (fun c => { data := c, err := none })
        ++ { data := d, err := some .other } :: rest)).w.body
      = run.w.body ++ cs.flatten ++ bytes ("Request failed" ++ "\n") ∧
    (relay run (cs.map (fun c => { data := c, err := none })
        ++ { data := d, err := some .other } :: rest)).w.status
      = some (run.w.status.getD (if cs = [] then 502 else 200)) := by
  induction cs generalizing run with
  | nil =>
    simp only [List.map_nil, List.nil_append, relay, relayStep_error]
    constructor
    · simp [Run.Error, Write_body, ResponseWriter.WriteHeader, ResponseWriter.SetHeader]
      cases run.w.status <;> rfl
    · simp [Run.Error, Write_status, ResponseWriter.WriteHeader, ResponseWriter.SetHeader]
      cases run.w.status <;> rfl
  | cons c more ih =>
    have hc : c ≠ [] := hne c (by simp)
    have hmore : ∀ x ∈ more, x ≠ [] := fun x hx => hne x (by simp [hx])
    have := ih hmore { run with w := run.w.Write c, trace := run.trace ++ chunkEvents c }
    simp only [List.map_cons, List.cons_append, relay, relayStep_chunk run c hc]
    constructor
    · exact this.1.trans (by simp [Write_body])
    · exact this.2.trans (by simp [Write_status])

/-- C8, the failing input: an authorized request, built by http.NewRequest into
whatever method and URL, whose upstream body yields the one-byte chunk 97 and then
fails with an error other than end of stream.  The chunk stays the prefix of the
body and the line Request failed follows it, but the status the client received is
the 200 sent with the first write, not 502: the WriteHeader(502) inside http.Error
comes after the header is out and changes nothing. -/
theorem handleRequest_read_error_after_chunk_status (built : List UInt8 × List UInt8) :
    ∃ run, (upstreamWith "secret123"
          [{ data := [97], err := none }, { data := [], err := some .other }]).handleRequest
        (fun _ _ => some built) ResponseWriter.fresh (requestWith "Bearer secret123")
        = .ok run ∧
      run.w.status = some 200 ∧
      run.w.status ≠ some 502 ∧
      run.w.body = [97] ++ bytes ("Request failed" ++ "\n") ∧
      run.trace = [Event.read { data := [97], err := none }, Event.write [97], Event.flush,
        Event.read { data := [], err := some .other },
        Event.write (bytes ("Request failed" ++ "\n"))] := by
  rw [handleRequest_accepted _ _ _ _ (by decide)]
  refine ⟨_, rfl, rfl, ?_, rfl, rfl⟩
  show some 200 ≠ some 502
  decide

/-! ## Startup -/

/-- The function main once the configuration is loaded. -/
theorem main_of_config (lowerRune : Char → Char) (client : Client) (stat : String → Bool)
    (configData : Option String) (h : Handle)
    (hcfg : readConfig lowerRune client configData = .ok h) :
    main lowerRune client stat configData =
      .ok (if fileExist stat h.keyFile && fileExist stat h.certFile then
          { stdout := ["Starting HTTPS server..."],
            listener := some (.tls h.listenerAddr h.certFile h.keyFile) }
        else if h.certFile = "" ∧ h.keyFile = "" then
          { stdout := ["Starting HTTP server..."], listener := some (.plain h.listenerAddr) }
        else
          { stdout := ["Certificate or key file not found!"], listener := none }) := by
  unfold main
  rw [hcfg]
  simp only [bind, Except.bind, pure, Except.pure]
  split_ifs <;> rfl

theorem fileExist_eq (stat : String → Bool) (file : String) : fileExist stat file = stat file := by
  unfold fileExist
  cases stat file <;> rfl

/-- Listener selection, the part of the startup that holds for every loaded
configuration (os.Stat fails on the empty path): when exactly one of key_file and
cert_file is set, main prints the line Certificate or key file not found! and
returns without starting any listener, so it is never downgraded to plaintext; a
TLS listener is started only when os.Stat succeeds on both configured paths, and a
plaintext listener only when both paths are empty. -/
theorem startup_listener_selection (lowerRune : Char → Char) (client : Client)
    (stat : String → Bool) (configData : Option String) (h : Handle)
    (hstat : stat "" = false)
    (hcfg : readConfig lowerRune client configData = .ok h) :
    (((h.keyFile ≠ "" ∧ h.certFile = "") ∨ (h.keyFile = "" ∧ h.certFile ≠ "")) →
      main lowerRune client stat configData
        = .ok { stdout := ["Certificate or key file not found!"], listener := none }) ∧
    (∀ s a c k, main lowerRune client stat configData = .ok s →
      s.listener = some (.tls a c k) →
      c = h.certFile ∧ k = h.keyFile ∧ stat h.keyFile = true ∧ stat h.certFile = true) ∧
    (∀ s a, main lowerRune client stat configData = .ok s →
      s.listener = some (.plain a) → h.keyFile = "" ∧ h.certFile = "") := by
  rw [main_of_config lowerRune client stat configData h hcfg]
  simp only [fileExist_eq]
  refine ⟨?_, ?_, ?_⟩
  · rintro (⟨hk, hc⟩ | ⟨hk, hc⟩)
    · simp [hk, hc, hstat]
    · simp [hk, hc, hstat]
  · intro s a c k hs hl
    by_cases h1 : (stat h.keyFile && stat h.certFile) = true
    · rw [if_pos h1] at hs
      injection hs with hs
      subst hs
      simp only [Option.some.injEq, Listener.tls.injEq] at hl
      simp only [Bool.and_eq_true] at h1
      exact ⟨hl.2.1.symm, hl.2.2.symm, h1.1, h1.2⟩
    · rw [if_neg h1] at hs
      by_cases h2 : h.certFile = "" ∧ h.keyFile = ""
      · rw [if_pos h2] at hs
        injection hs with hs
        subst hs
        simp at hl
      · rw [if_neg h2] at hs
        injection hs with hs
        subst hs
        simp at hl
  · intro s a hs hl
    by_cases h1 : (stat h.keyFile && stat h.certFile) = true
    · rw [if_pos h1] at hs
      injection hs with hs
      subst hs
      simp at hl
    · rw [if_neg h1] at hs
      by_cases h2 : h.certFile = "" ∧ h.keyFile = ""
      · exact ⟨h2.2, h2.1⟩
      · rw [if_neg h2] at hs
        injection hs with hs
        subst hs
        simp at hl

theorem keyOnlyConfig_loads :
    readConfig id (fun _ => none) (some keyOnlyConfig) = .ok keyOnlyHandle := by
  rfl

theorem startup_listener_selection_witness :
    (fun _ => false : String → Bool) "" = false ∧
    readConfig id (fun _ => none) (some keyOnlyConfig) = .ok keyOnlyHandle ∧
    (((keyOnlyHandle.keyFile ≠ "" ∧ keyOnlyHandle.certFile = "") ∨
        (keyOnlyHandle.keyFile = "" ∧ keyOnlyHandle.certFile ≠ "")) →
      main id (fun _ => none) (fun _ => false) (some keyOnlyConfig)
        = .ok { stdout := ["Certificate or key file not found!"], listener := none }) ∧
    (∀ s a c k, main id (fun _ => none) (fun _ => false) (some keyOnlyConfig) = .ok s →
      s.listener = some (.tls a c k) →
      c = keyOnlyHandle.certFile ∧ k = keyOnlyHandle.keyFile ∧
        (fun _ => false : String → Bool) keyOnlyHandle.keyFile = true ∧
        (fun _ => false : String → Bool) keyOnlyHandle.certFile = true) ∧
    (∀ s a, main id (fun _ => none) (fun _ => false) (some keyOnlyConfig) = .ok s →
      s.listener = some (.plain a) → keyOnlyHandle.keyFile = "" ∧ keyOnlyHandle.certFile = "") :=
  ⟨rfl, rfl,
    startup_listener_selection id (fun _ => none) (fun _ => false) (some keyOnlyConfig)
      keyOnlyHandle rfl rfl⟩

/-- A configuration without the listener address. -/
theorem readConfig_missing_listener_is_fatal :
    readConfig id (fun _ => none) (some "ollama_server:http://localhost:11434\nauth_token:secret123")
      = .error (.fatal "Listener address not set in config") := by
  rfl

/-- C9, the failing input: the configuration sets key_file and no cert_file.  Startup
starts no listener, but it does not end in a fatal error: main prints the line
Certificate or key file not found! and returns normally, since err is still nil
when log.Fatal is reached; no fatal exit happens for this configuration, unlike
for a missing required field, where readConfig calls log.Fatal. -/
theorem main_key_without_cert_returns_normally :
    readConfig id (fun _ => none) (some keyOnlyConfig) = .ok keyOnlyHandle ∧
    keyOnlyHandle.keyFile ≠ "" ∧ keyOnlyHandle.certFile = "" ∧
    main id (fun _ => none) (fun _ => false) (some keyOnlyConfig)
      = .ok { stdout := ["Certificate or key file not found!"], listener := none } ∧
    (∀ e, main id (fun _ => none) (fun _ => false) (some keyOnlyConfig) ≠ .error e) ∧
    main id (fun _ => none) (fun _ => false)
        (some "ollama_server:http://localhost:11434\nauth_token:secret123\nkey_file:server.key")
      = .error (.fatal "Listener address not set in config") := by
  refine ⟨rfl, by decide, rfl, rfl, ?_, rfl⟩
  intro e he
  have h2 : main id (fun _ => none) (fun _ => false) (some keyOnlyConfig)
      = .ok { stdout := ["Certificate or key file not found!"], listener := none } := rfl
  rw [h2] at he
  cases he

/-! ## Configuration lines -/

/-- Cutting at the first separator a text that has none before it. -/
theorem splitFirst_cons_sep (sep : Char) (a b : List Char) (ha : sep ∉ a) :
    splitFirst sep (a ++ sep :: b) = [a, b] := by
  induction a with
  | nil => simp [splitFirst]
  | cons c cs ih =>
    have hc : c ≠ sep := fun e => ha (by simp [e])
    have hcs : sep ∉ cs := fun e => ha (by simp [e])
    simp [splitFirst, hc, ih hcs]

/-- TrimSpace leaves a text alone whose first and last characters are not white space. -/
theorem TrimSpace_id (c : Char) (rest : List Char) (hc : isSpace c = false)
    (hlast : ∀ d, (c :: rest).getLast? = some d → isSpace d = false) :
    TrimSpace (String.mk (c :: rest)) = String.mk (c :: rest) := by
  unfold TrimSpace
  have h1 : (c :: rest).dropWhile isSpace = c :: rest := by simp [List.dropWhile, hc]
  simp only [h1]
  cases hr : (c :: rest).reverse with
  | nil => simp at hr
  | cons d ds =>
    have hd : (c :: rest).getLast? = some d := by
      rw [← List.head?_reverse, hr]; rfl
    have h2 : (d :: ds).dropWhile isSpace = d :: ds := by
      simp [List.dropWhile, hlast d hd]
    rw [h2, ← hr, List.reverse_reverse]

/-- The last character of a text closed by a colon and a value. -/
theorem getLast_key_value (k w : List Char) (d : Char)
    (hw : ∀ c, w.getLast? = some c → isSpace c = false)
    (hd : (k ++ ':' :: w).getLast? = some d) : isSpace d = false := by
  cases w with
  | nil =>
    simp at hd
    subst hd
    decide
  | cons x xs =>
    have e : k ++ ':' :: x :: xs = (k ++ [':']) ++ (x :: xs) := by simp
    rw [e, List.getLast?_append_of_ne_nil _ (by simp)] at hd
    exact hw d hd

/-- The loop body on a line made of a key, a colon and a value text: the key starts
with a character that is not white space and has no colon, the value does not end
in white space. -/
theorem configLine_key_value (lowerRune : Char → Char) (handle : Handle) (c : Char)
    (k w : List Char) (hc : isSpace c = false) (hcolon : ':' ∉ c :: k)
    (hw : ∀ d, w.getLast? = some d → isSpace d = false) :
    configLine lowerRune handle (String.mk ((c :: k) ++ ':' :: w)) =
      (let tType := ToLower lowerRune (String.mk (c :: k))
       let tVal := String.mk w
       if tType = "ollama_server" then
         .ok { handle with ollamaServer := ToLower lowerRune tVal }
       else if tType = "auth_token" then .ok { handle with validToken := tVal }
       else if tType = "listener_addr" then
         .ok { handle with listenerAddr := ToLower lowerRune tVal }
       else if tType = "key_file" then .ok { handle with keyFile := tVal }
       else if tType = "cert_file" then .ok { handle with certFile := tVal }
       else .ok handle) := by
  have hcont : Contains (String.mk ((c :: k) ++ ':' :: w)) ':' = true := by
    simp [Contains]
  have htrim : TrimSpace (String.mk ((c :: k) ++ ':' :: w)) = String.mk ((c :: k) ++ ':' :: w) := by
    have := TrimSpace_id c (k ++ ':' :: w) hc (fun d hd => getLast_key_value (c :: k) w d hw hd)
    simpa using this
  have hsplit : SplitN2 (String.mk ((c :: k) ++ ':' :: w)) ':' = [String.mk (c :: k), String.mk w] := by
    unfold SplitN2
    rw [splitFirst_cons_sep ':' (c :: k) w hcolon]
    rfl
  unfold configLine
  rw [hcont, htrim, hsplit]
  simp only [index, List.get?, bind, Except.bind, pure, Except.pure]
  split_ifs <;> first | rfl | simp_all

/-- The loop body on a line made of a recognised key, a colon and a text that does
not end in white space: the text after the colon is stored as it stands. -/
theorem configLine_stores_after_colon (lowerRune : Char → Char) (handle : Handle) (K : Key)
    (W : String) (hW : ∀ d, W.data.getLast? = some d → isSpace d = false) :
    configLine lowerRune handle (K.text ++ ":" ++ W) = .ok (K.store lowerRune handle W) := by
  cases K
  · have h := configLine_key_value lowerRune handle 'o' "llama_server".data W.data
      (by decide) (by decide) hW
    have e : Key.text .ollama_server ++ ":" ++ W
        = String.mk (('o' :: "llama_server".data) ++ ':' :: W.data) := by
      apply String.ext; simp [Key.text]
    rw [e, h]
    rfl
  · have h := configLine_key_value lowerRune handle 'a' "uth_token".data W.data
      (by decide) (by decide) hW
    have e : Key.text .auth_token ++ ":" ++ W
        = String.mk (('a' :: "uth_token".data) ++ ':' :: W.data) := by
      apply String.ext; simp [Key.text]
    rw [e, h]
    rfl
  · have h := configLine_key_value lowerRune handle 'l' "istener_addr".data W.data
      (by decide) (by decide) hW
    have e : Key.text .listener_addr ++ ":" ++ W
        = String.mk (('l' :: "istener_addr".data) ++ ':' :: W.data) := by
      apply String.ext; simp [Key.text]
    rw [e, h]
    rfl
  · have h := configLine_key_value lowerRune handle 'k' "ey_file".data W.data
      (by decide) (by decide) hW
    have e : Key.text .key_file ++ ":" ++ W
        = String.mk (('k' :: "ey_file".data) ++ ':' :: W.data) := by
      apply String.ext; simp [Key.text]
    rw [e, h]
    rfl
  · have h := configLine_key_value lowerRune handle 'c' "ert_file".data W.data
      (by decide) (by decide) hW
    have e : Key.text .cert_file ++ ":" ++ W
        = String.mk (('c' :: "ert_file".data) ++ ':' :: W.data) := by
      apply String.ext; simp [Key.text]
    rw [e, h]
    rfl

/-- C10, refuted as stated: the scenario text loads with the space after each colon
kept in the value, so the token is a space followed by secret123, not secret123,
and the header "Bearer secret123" is rejected. -/
theorem scenario_config_keeps_space :
    readConfig id (fun _ => none) (some scenarioConfig) = .ok scenarioHandle ∧
      scenarioHandle.ollamaServer ≠ "http://localhost:11434" ∧
      scenarioHandle.validToken ≠ "secret123" ∧
      scenarioHandle.listenerAddr ≠ ":8080" ∧
      scenarioHandle.authorized "Bearer secret123" = .ok false :=
  ⟨rfl, by decide, by decide, by decide, by decide⟩

/-- The request http.NewRequest builds for the scenario: the URL text is unchanged. -/
theorem scenario_request_built :
    goNewRequest "GET" "http://localhost:11434/api/tags"
      = some (bytes "GET", bytes "http://localhost:11434/api/tags") := by
  decide

/-- C10, amended: the value of a configuration line is the text after the first
colon as it stands.  For every recognised key K and non-empty value text V that does
not end in white space, the line K, colon, one space, V stores a space followed by V
(lower-cased for ollama_server and listener_addr), and the line K, colon, V stores V.
The scenario text with a space after each colon loads the three values with the
leading space and the header "Bearer secret123" is then rejected; written without
that space it loads http://localhost:11434, secret123 and :8080, the header
"Bearer secret123" is accepted and the outbound URL for /api/tags is
http://localhost:11434/api/tags: that is the text handed to http.NewRequest and the
URL of the request it builds. -/
theorem config_line_value_is_text_after_colon (lowerRune : Char → Char) (client : Client)
    (handle : Handle) (K : Key) (V : String) (hne : V ≠ "")
    (hV : ∀ d, V.data.getLast? = some d → isSpace d = false) :
    configLine lowerRune handle (K.text ++ ":" ++ (" " ++ V))
      = .ok (K.store lowerRune handle (" " ++ V)) ∧
    configLine lowerRune handle (K.text ++ ":" ++ V) = .ok (K.store lowerRune handle V) ∧
    (∃ h1, readConfig lowerRune client (some scenarioConfig) = .ok h1 ∧
      h1.ollamaServer = " http://localhost:11434" ∧ h1.validToken = " secret123" ∧
      h1.listenerAddr = " :8080" ∧ h1.authorized "Bearer secret123" = .ok false) ∧
    (∃ h2, readConfig lowerRune client (some compactConfig) = .ok h2 ∧
      h2.ollamaServer = "http://localhost:11434" ∧ h2.validToken = "secret123" ∧
      h2.listenerAddr = ":8080" ∧ h2.authorized "Bearer secret123" = .ok true ∧
      h2.ollamaServer ++ (requestWith "Bearer secret123").url
        = "http://localhost:11434/api/tags" ∧
      goNewRequest (requestWith "Bearer secret123").method
          (h2.ollamaServer ++ (requestWith "Bearer secret123").url)
        = some (bytes "GET", bytes "http://localhost:11434/api/tags")) := by
  refine ⟨?_, ?_, ?_, ?_⟩
  · apply configLine_stores_after_colon
    intro d hd
    have hdata : V.data ≠ [] := fun e => hne (String.ext e)
    have e : (" " ++ V).data = [' '] ++ V.data := by simp
    rw [e, List.getLast?_append_of_ne_nil _ hdata] at hd
    exact hV d hd
  · exact configLine_stores_after_colon lowerRune handle K V hV
  · exact ⟨_, rfl, rfl, rfl, rfl, rfl⟩
  · exact ⟨_, rfl, rfl, rfl, rfl, rfl, rfl, scenario_request_built⟩

theorem config_line_value_is_text_after_colon_witness :
    "secret123" ≠ "" ∧
    (∀ d, "secret123".data.getLast? = some d → isSpace d = false) ∧
    configLine id (handleWith "") (Key.auth_token.text ++ ":" ++ (" " ++ "secret123"))
      = .ok (Key.auth_token.store id (handleWith "") (" " ++ "secret123")) ∧
    configLine id (handleWith "") (Key.auth_token.text ++ ":" ++ "secret123")
      = .ok (Key.auth_token.store id (handleWith "") "secret123") ∧
    (∃ h1, readConfig id (fun _ => none) (some scenarioConfig) = .ok h1 ∧
      h1.ollamaServer = " http://localhost:11434" ∧ h1.validToken = " secret123" ∧
      h1.listenerAddr = " :8080" ∧ h1.authorized "Bearer secret123" = .ok false) ∧
    (∃ h2, readConfig id (fun _ => none) (some compactConfig) = .ok h2 ∧
      h2.ollamaServer = "http://localhost:11434" ∧ h2.validToken = "secret123" ∧
      h2.listenerAddr = ":8080" ∧ h2.authorized "Bearer secret123" = .ok true ∧
      h2.ollamaServer ++ (requestWith "Bearer secret123").url
        = "http://localhost:11434/api/tags" ∧
      goNewRequest (requestWith "Bearer secret123").method
          (h2.ollamaServer ++ (requestWith "Bearer secret123").url)
        = some (bytes "GET", bytes "http://localhost:11434/api/tags")) :=
  ⟨by decide, by decide,
    config_line_value_is_text_after_colon id (fun _ => none) (handleWith "") Key.auth_token
      "secret123" (by decide) (by decide)⟩

end OllamaAuth
